import Mathlib

/-!
Shallow embedding of the ballot-validation pipeline of
`src/ballot_service/validator.py` (class `BallotValidator`), together with the
auxiliary modules `config 2.py` (settings) and `models 2.py` (the `Vote` row).

Modelling conventions:
* Python strings are `List Char`; Python's `re.IGNORECASE` matching is modelled
  by comparing characters through `lcase`, a character-wise lower-casing that
  covers ASCII and the Greek letters occurring in the patterns and in the
  configured data (Python's `str.lower`/`str.upper` restricted to those).
* `\s` and Python's `str.strip` whitespace are modelled by the six ASCII
  whitespace characters; `\d` is modelled by `Char.isDigit` (the claims only
  involve ASCII text).
* The external collaborators (pyhanko signature validation, pypdf text
  extraction, hashlib) are inputs of the model: a `Document` packages, per
  submission, the per-signature validator outcomes, the file digest and the
  text-extraction outcome, and `Config.sha256hex` stands for the hashlib
  digest used on the voter identity (`_hash_voter_id`).
* The SQLAlchemy session is modelled by explicit state passing of the list of
  committed `VoteRecord` rows: every mutation performed by the source is
  immediately followed by `commit()` there (gate 4's delete, `_record_vote`'s
  add), so the committed store after each step is exactly the returned list.
-/

set_option maxRecDepth 4000

/-- Pairs of (uppercase, lowercase) Greek letters used by the case-insensitive
patterns and the configured signer names. -/
def greekLower : List (Char × Char) :=
  [('Α', 'α'), ('Β', 'β'), ('Γ', 'γ'), ('Δ', 'δ'), ('Ε', 'ε'), ('Ζ', 'ζ'),
   ('Η', 'η'), ('Θ', 'θ'), ('Ι', 'ι'), ('Κ', 'κ'), ('Λ', 'λ'), ('Μ', 'μ'),
   ('Ν', 'ν'), ('Ξ', 'ξ'), ('Ο', 'ο'), ('Π', 'π'), ('Ρ', 'ρ'), ('Σ', 'σ'),
   ('Τ', 'τ'), ('Υ', 'υ'), ('Φ', 'φ'), ('Χ', 'χ'), ('Ψ', 'ψ'), ('Ω', 'ω'),
   ('Ά', 'ά'), ('Έ', 'έ'), ('Ή', 'ή'), ('Ί', 'ί'), ('Ό', 'ό'), ('Ύ', 'ύ'),
   ('Ώ', 'ώ')]

/-- Character-wise lower-casing (ASCII via `Char.toLower`, plus the Greek
letters of `greekLower`); models the case-folding of `re.IGNORECASE`. -/
def lcase (c : Char) : Char :=
  match greekLower.find? (fun p => p.1 == c) with
  | some p => p.2
  | none => c.toLower

/-- Character-wise upper-casing; models Python `str.upper` on the characters
relevant here (used by `_is_allowed_signer`). -/
def ucase (c : Char) : Char :=
  if c = 'ς' then 'Σ'
  else
    match greekLower.find? (fun p => p.2 == c) with
    | some p => p.1
    | none => c.toUpper

/-- Python `str.upper` applied to a whole string. -/
def upperL (l : List Char) : List Char := l.map ucase

/-- The whitespace characters of Python's `\s` / `str.strip` (ASCII part). -/
def isPySpace (c : Char) : Bool :=
  c = ' ' || c = '\t' || c = '\n' || c = '\r' || c = '\x0b' || c = '\x0c'

/-- The character class `[:\s]` of `AFM_PATTERN` / `VOTE_CHOICE_PATTERN_GR_ALT`. -/
def isSep (c : Char) : Bool := c = ':' || isPySpace c

/-- Python `str.strip()`: drop whitespace from both ends. -/
def pyStrip (l : List Char) : List Char :=
  ((l.dropWhile isPySpace).reverse.dropWhile isPySpace).reverse

/-- Case-insensitive literal match at the head of the text; returns the
remainder after the literal on success. -/
def matchLitCI : List Char → List Char → Option (List Char)
  | [], s => some s
  | _ :: _, [] => none
  | p :: ps, c :: cs => if lcase c = lcase p then matchLitCI ps cs else none

/-- Does `pat` occur at the head of `s`? (helper for Python's `in`). -/
def startsWithL : List Char → List Char → Bool
  | [], _ => true
  | _ :: _, [] => false
  | p :: ps, c :: cs => if p = c then startsWithL ps cs else false

/-- Python's `pat in s` for strings: contiguous-substring containment. -/
def hasSub (pat : List Char) : List Char → Bool
  | [] => pat.isEmpty
  | c :: cs => startsWithL pat (c :: cs) || hasSub pat cs

/-- Leftmost-position regex search driver: try the position matcher `f` at
every start position, leftmost first (Python `re.search`). -/
def searchWith (f : List Char → Option (List Char)) : List Char → Option (List Char)
  | [] => f []
  | c :: rest =>
    match f (c :: rest) with
    | some g => some g
    | none => searchWith f rest

/-! ### `AFM_PATTERN = (?:AFM|ΑΦΜ|Α\.Φ\.Μ\.|Tax ID)[:\s]*(\d{9})`, IGNORECASE -/

/-- The label alternatives of `AFM_PATTERN`, in the source's alternation order. -/
def afmLabels : List (List Char) :=
  ["AFM".toList, "ΑΦΜ".toList, "Α.Φ.Μ.".toList, "Tax ID".toList]

/-- Try each label alternative at the current position, first match wins. -/
def tryLabels : List (List Char) → List Char → Option (List Char)
  | [], _ => none
  | l :: ls, s =>
    match matchLitCI l s with
    | some r => some r
    | none => tryLabels ls s

/-- Match `AFM_PATTERN` anchored at the current position: a label alternative,
then `[:\s]*` (greedy; backtracking cannot help since no separator is a
digit), then exactly nine digits, which form the capture group. -/
def afmAt (s : List Char) : Option (List Char) :=
  match tryLabels afmLabels s with
  | none => none
  | some r =>
    let r2 := r.dropWhile isSep
    let ds := r2.take 9
    if ds.length = 9 ∧ ds.all Char.isDigit then some ds else none

/-- Search with `AFM_PATTERN` returning group 1: leftmost match wins.
This is `_extract_afm`. -/
def afmSearch : List Char → Option (List Char)
  | [] => none
  | c :: rest =>
    match afmAt (c :: rest) with
    | some d => some d
    | none => afmSearch rest

/-! ### The four vote-choice patterns of `_extract_vote_choice` -/

/-- The lazy capture of `\[(.*?)\]`: the characters from after `[` up to the
first `]`; fails if a newline intervenes (`.` does not match `\n`) or no `]`
follows. -/
def bracketCap : List Char → Option (List Char)
  | [] => none
  | c :: rest =>
    if c = ']' then some []
    else if c = '\n' then none
    else (bracketCap rest).map (fun g => c :: g)

/-- Pattern `VOTE_CHOICE_PATTERN = vote for \[(.*?)\]` anchored at a position. -/
def voteEnAt (s : List Char) : Option (List Char) :=
  (matchLitCI "vote for [".toList s).bind bracketCap

/-- Pattern `VOTE_CHOICE_PATTERN_GR = ψηφίζω \[(.*?)\]` anchored at a position. -/
def voteGrAt (s : List Char) : Option (List Char) :=
  (matchLitCI "ψηφίζω [".toList s).bind bracketCap

/-- Backtracking step for `[\s:]+([^.\n]+)`: with `j` separator characters
consumed (starting from the maximal run and shrinking, one-or-more required),
the greedy capture is the maximal run of characters that are neither `.` nor
`\n`; the first `j` giving a non-empty capture wins. -/
def graltTry (r : List Char) : Nat → Option (List Char)
  | 0 => none
  | j + 1 =>
    let cap := (r.drop (j + 1)).takeWhile (fun c => !(c = '.' || c = '\n'))
    if cap.isEmpty then graltTry r j else some cap

/-- Pattern `VOTE_CHOICE_PATTERN_GR_ALT = ψηφίζω[\s:]+([^.\n]+)` anchored at a
position. -/
def graltAt (s : List Char) : Option (List Char) :=
  match matchLitCI "ψηφίζω".toList s with
  | none => none
  | some r => graltTry r ((r.takeWhile isSep).length)

/-- The lazy capture of `(.+?)(?:\.|$)`: the shortest non-empty run of
non-newline characters followed by `.`, the end of the text, or a final
newline (Python `$` without MULTILINE). -/
def lazyCap : List Char → Option (List Char)
  | [] => none
  | c :: rest =>
    if c = '\n' then none
    else if (match rest with
             | [] => true
             | ['\n'] => true
             | '.' :: _ => true
             | _ => false) then some [c]
    else (lazyCap rest).map (fun g => c :: g)

/-- Pattern `VOTE_CHOICE_PATTERN_GR_OTI = ψηφίζω (?:για |υπέρ )?(.+?)(?:\.|$)`
anchored at a position: the optional group prefers to match, and on failure
of the remainder the engine retries with it absent. -/
def grOtiAt (s : List Char) : Option (List Char) :=
  match matchLitCI "ψηφίζω ".toList s with
  | none => none
  | some r =>
    match (matchLitCI "για ".toList r).bind lazyCap with
    | some g => some g
    | none =>
      match (matchLitCI "υπέρ ".toList r).bind lazyCap with
      | some g => some g
      | none => lazyCap r

/-- The final strategy of `_extract_vote_choice`: search with the loosest
Greek pattern, then apply the `choice and len(choice) < 200` sanity check;
failure yields `None`. -/
def tryGrOti (text : List Char) : Option (List Char) :=
  match searchWith grOtiAt text with
  | none => none
  | some g =>
    let choice := pyStrip g
    if choice ≠ [] ∧ choice.length < 200 then some choice else none

/-- Model of `_extract_vote_choice`: the ordered cascade of the four patterns. The two
bracketed strategies return `group(1).strip()` unconditionally; the two
flexible Greek strategies additionally require the stripped candidate to be
non-empty and strictly shorter than 200 characters, falling through
otherwise. -/
def extractVoteChoice (text : List Char) : Option (List Char) :=
  match searchWith voteEnAt text with
  | some g => some (pyStrip g)
  | none =>
    match searchWith voteGrAt text with
    | some g => some (pyStrip g)
    | none =>
      match searchWith graltAt text with
      | some g =>
        let choice := pyStrip g
        if choice ≠ [] ∧ choice.length < 200 then some choice else tryGrOti text
      | none => tryGrOti text

/-! ### Data model: rejection reasons, results, configuration, store -/

/-- The `RejectionReason` closed enumeration of failure causes. -/
inductive RejectionReason where
  | invalid_signature
  | unknown_signer
  | no_signature
  | duplicate_file
  | invalid_token
  | token_not_found
  | afm_not_found
  | already_voted
  | vote_choice_not_found
  | pdf_read_error
deriving DecidableEq, Repr

/-- The `ValidationResult` dataclass. -/
structure ValidationResult where
  success : Bool
  rejection_reason : Option RejectionReason := none
  message : List Char := []
  voter_hash : Option (List Char) := none
  vote_choice : Option (List Char) := none
  file_hash : Option (List Char) := none
  signer_name : Option (List Char) := none
deriving DecidableEq, Repr

/-- A committed `Vote` row (`models 2.py`); `created_at` is an abstract
timestamp. -/
structure VoteRecord where
  poll_id : List Char
  voter_hash : List Char
  file_hash : List Char
  vote_choice : List Char
  created_at : Nat
deriving DecidableEq, Repr

/-- The settings consumed by `BallotValidator.__init__` plus `settings.DEBUG`;
`sha256hex` stands for the external `hashlib.sha256(...).hexdigest()` used by
`_hash_voter_id` (an arbitrary deterministic function of its input). -/
structure Config where
  allowed_signers : List (List Char)
  salt_key : List Char
  allow_vote_update : Bool
  debug : Bool
  sha256hex : List Char → List Char

/-- Model of `_hash_voter_id`: digest of `afm + salt`. -/
def hashVoterId (cfg : Config) (afm : List Char) : List Char :=
  cfg.sha256hex (afm ++ cfg.salt_key)

/-- Outcome of running the external signature validator on one embedded
signature (the loop body of `_gate1_verify_signature`): a returned status
(validity flag, integrity flag, certificate with its extracted signer name —
`_extract_signer_name` is total and never raises), a raised
`SignatureValidationError`, or a raised exception of any other type. -/
inductive SigOutcome where
  | status (valid : Bool) (intact : Bool) (cert : Option (List Char))
  | sigValidationError
  | otherError (msg : List Char)
deriving DecidableEq, Repr

/-- The per-submission results of the external collaborators: the embedded
signatures with their validator outcomes (`Except.error` when enumerating the
container itself raises), the sha256 hex digest of the raw bytes
(`_calculate_file_hash`), and the text-extraction outcome (`Except.error`
when `_extract_text` raises). -/
structure Document where
  sigResults : Except (List Char) (List SigOutcome)
  fileHash : List Char
  textResult : Except (List Char) (List Char)

/-- Model of `_is_allowed_signer`: symmetric case-insensitive substring test against
the allow-list. -/
def isAllowedSigner (allowed : List (List Char)) (name : List Char) : Bool :=
  allowed.any fun a =>
    hasSub (upperL a) (upperL name) || hasSub (upperL name) (upperL a)

/-- Result of the signature-scanning loop of `_gate1_verify_signature`. -/
inductive Gate1Scan where
  | accepted (name : List Char) (found : List (List Char))
  | exhausted (found : List (List Char))
  | fatal (msg : List Char)
deriving DecidableEq, Repr

/-- The `for sig in sig_fields` loop of `_gate1_verify_signature`, with the
accumulated `found_signers` list: a raised `SignatureValidationError` is
caught and skips to the next signature; any other raised exception escapes
the loop (caught only by the gate's outer handler). -/
def gate1Scan (allowed : List (List Char)) :
    List SigOutcome → List (List Char) → Gate1Scan
  | [], found => Gate1Scan.exhausted found
  | SigOutcome.status valid intact cert :: rest, found =>
    if valid && intact then
      match cert with
      | some name =>
        if isAllowedSigner allowed name then Gate1Scan.accepted name (found ++ [name])
        else gate1Scan allowed rest (found ++ [name])
      | none => gate1Scan allowed rest found
    else gate1Scan allowed rest found
  | SigOutcome.sigValidationError :: rest, found => gate1Scan allowed rest found
  | SigOutcome.otherError msg :: _, _ => Gate1Scan.fatal msg

/-- The signer names accumulated by the scan from valid, intact signatures
with a certificate (in scan order). -/
def foundNames : List SigOutcome → List (List Char)
  | [] => []
  | SigOutcome.status valid intact (some n) :: rest =>
    if valid && intact then n :: foundNames rest else foundNames rest
  | SigOutcome.status _ _ none :: rest => foundNames rest
  | SigOutcome.sigValidationError :: rest => foundNames rest
  | SigOutcome.otherError _ :: rest => foundNames rest

/-- Does no signature make the validator raise a non-`SignatureValidationError`
exception? -/
def noOtherError : List SigOutcome → Bool
  | [] => true
  | SigOutcome.otherError _ :: _ => false
  | _ :: rest => noOtherError rest

/-- Python `", ".join(...)`. -/
def commaJoin : List (List Char) → List Char
  | [] => []
  | [x] => x
  | x :: y :: xs => x ++ ", ".toList ++ commaJoin (y :: xs)

/-- The `UNKNOWN_SIGNER` message of `_gate1_verify_signature`, listing the
candidate signer names found (or `None`). -/
def unknownSignerMsg (found : List (List Char)) : List Char :=
  "PDF signature is not from a recognized government authority. Found: ".toList ++
    (if found.isEmpty then "None".toList else commaJoin found)

/-- Model of `_gate1_verify_signature`. -/
def gate1 (cfg : Config) (sigResults : Except (List Char) (List SigOutcome)) :
    ValidationResult :=
  match sigResults with
  | Except.error e =>
    { success := false
      rejection_reason := some RejectionReason.invalid_signature
      message := "Signature verification failed: ".toList ++ e }
  | Except.ok sigs =>
    if sigs.isEmpty then
      { success := false
        rejection_reason := some RejectionReason.no_signature
        message := "PDF does not contain any digital signatures".toList }
    else
      match gate1Scan cfg.allowed_signers sigs [] with
      | Gate1Scan.accepted name _ =>
        { success := true
          message := "Valid government signature verified".toList
          signer_name := some name }
      | Gate1Scan.exhausted found =>
        { success := false
          rejection_reason := some RejectionReason.unknown_signer
          message := unknownSignerMsg found }
      | Gate1Scan.fatal msg =>
        { success := false
          rejection_reason := some RejectionReason.invalid_signature
          message := "Signature verification failed: ".toList ++ msg }

/-- Model of `_gate2_check_uniqueness`: lookup by file hash over the committed store. -/
def gate2 (db : List VoteRecord) (fileHash : List Char) : ValidationResult :=
  if db.any (fun v => v.file_hash == fileHash) then
    { success := false
      rejection_reason := some RejectionReason.duplicate_file
      message := "This declaration has already been submitted".toList
      file_hash := some fileHash }
  else
    { success := true
      message := "File is unique".toList
      file_hash := some fileHash }

/-- Model of `_gate3_verify_token`. -/
def gate3 (cfg : Config) (text poll_token : List Char) : ValidationResult :=
  if poll_token.isEmpty then
    { success := false
      rejection_reason := some RejectionReason.invalid_token
      message := "Poll token is required".toList }
  else if cfg.debug then
    { success := true
      message := "Token check bypassed in debug mode".toList }
  else if !(hasSub poll_token text) then
    { success := false
      rejection_reason := some RejectionReason.token_not_found
      message := "Security token not found in declaration. Please generate a new declaration with the correct token.".toList }
  else
    { success := true, message := "Token verified".toList }

/-- Lookup of an existing vote by `(poll_id, voter_hash)` (`.first()`). -/
def findVote (db : List VoteRecord) (pid vh : List Char) : Option VoteRecord :=
  db.find? fun v => v.poll_id == pid && v.voter_hash == vh

/-- Model of `_gate4_verify_identity`, returning the gate result together with the
committed store after the gate: in the update-allowed branch the source
executes `db.delete(existing_vote)` followed immediately by `db.commit()`,
so the deletion is durable when the gate returns. -/
def gate4 (cfg : Config) (db : List VoteRecord) (text poll_id : List Char) :
    ValidationResult × List VoteRecord :=
  match afmSearch text with
  | none =>
    ({ success := false
       rejection_reason := some RejectionReason.afm_not_found
       message := "Could not find AFM/Tax ID in the declaration".toList }, db)
  | some afm =>
    let vh := hashVoterId cfg afm
    match findVote db poll_id vh with
    | none =>
      ({ success := true
         message := "Voter identity verified".toList
         voter_hash := some vh }, db)
    | some _ =>
      if cfg.allow_vote_update then
        ({ success := true
           message := "Previous vote will be updated".toList
           voter_hash := some vh },
         db.eraseP (fun v => v.poll_id == poll_id && v.voter_hash == vh))
      else
        ({ success := false
           rejection_reason := some RejectionReason.already_voted
           message := "You have already voted in this poll".toList
           voter_hash := some vh }, db)

/-- Model of `_record_vote`: insert the new row and commit. -/
def recordVote (db : List VoteRecord) (pid vh fh choice : List Char) (now : Nat) :
    List VoteRecord :=
  db ++ [{ poll_id := pid, voter_hash := vh, file_hash := fh,
           vote_choice := choice, created_at := now }]

/-- The `VOTE_CHOICE_NOT_FOUND` result of `validate`. -/
def voteChoiceNotFoundResult : ValidationResult :=
  { success := false
    rejection_reason := some RejectionReason.vote_choice_not_found
    message := "Could not find vote choice in declaration. Expected format: vote for [OPTION]".toList }

/-- The `PDF_READ_ERROR` result (quoting the raised exception). -/
def pdfReadErrorResult (e : List Char) : ValidationResult :=
  { success := false
    rejection_reason := some RejectionReason.pdf_read_error
    message := "Failed to extract text from PDF: ".toList ++ e }

/-- Model of `BallotValidator.validate`: the four gates in order, short-circuiting on
the first failure, then vote-choice extraction (`if not vote_choice` treats
both `None` and the empty string as absent) and the recording of the vote.
The second component is the committed durable store when the call returns;
`now` is the `datetime.utcnow()` timestamp used by `_record_vote`. -/
def validate (cfg : Config) (db : List VoteRecord) (doc : Document)
    (poll_id poll_token : List Char) (now : Nat) :
    ValidationResult × List VoteRecord :=
  let g1 := gate1 cfg doc.sigResults
  if g1.success = false then (g1, db)
  else
    let g2 := gate2 db doc.fileHash
    if g2.success = false then (g2, db)
    else
      match doc.textResult with
      | Except.error e => (pdfReadErrorResult e, db)
      | Except.ok text =>
        let g3 := gate3 cfg text poll_token
        if g3.success = false then (g3, db)
        else
          let g4p := gate4 cfg db text poll_id
          if g4p.1.success = false then (g4p.1, g4p.2)
          else
            match extractVoteChoice text with
            | none => (voteChoiceNotFoundResult, g4p.2)
            | some choice =>
              if choice = [] then (voteChoiceNotFoundResult, g4p.2)
              else
                let vh := g4p.1.voter_hash.getD []
                ({ success := true
                   message := "Vote successfully recorded".toList
                   voter_hash := some vh
                   vote_choice := some choice
                   file_hash := some doc.fileHash
                   signer_name := g1.signer_name },
                 recordVote g4p.2 poll_id vh doc.fileHash choice now)

/-- Model of `BallotValidator.validate_identity`: signature gate, text extraction and
identity extraction plus hashing only; no store access. -/
def validate_identity (cfg : Config) (doc : Document) : ValidationResult :=
  let g1 := gate1 cfg doc.sigResults
  if g1.success = false then g1
  else
    match doc.textResult with
    | Except.error e => pdfReadErrorResult e
    | Except.ok text =>
      match afmSearch text with
      | none =>
        { success := false
          rejection_reason := some RejectionReason.afm_not_found
          message := "Could not find AFM/Tax ID in the declaration".toList }
      | some afm =>
        { success := true
          message := "Identity verified successfully".toList
          voter_hash := some (hashVoterId cfg afm)
          signer_name := g1.signer_name }

/-! ### Auxiliary executable predicates used by claim statements -/

/-- The text has no digit at its head (used to state that a label is followed
by *exactly* nine digits). -/
def noLeadDigit : List Char → Bool
  | [] => true
  | c :: _ => !c.isDigit

/-- At this position, either no `AFM_PATTERN` label alternative matches, or the
run of digits following it (after optional separators) is shorter than nine. -/
def labelShortAt (s : List Char) : Bool :=
  match tryLabels afmLabels s with
  | none => true
  | some r => ((r.dropWhile isSep).takeWhile Char.isDigit).length < 9

/-- Every position of the text satisfies `labelShortAt`: every label
occurrence is followed by fewer than nine digits. -/
def allLabelsShort : List Char → Bool
  | [] => true
  | c :: rest => labelShortAt (c :: rest) && allLabelsShort rest

/-! ### Concrete configurations and inputs used by witnesses -/

/-- A configuration with debug off and the update policy off; the external
digest is instantiated with an arbitrary concrete function. -/
def cfgOff : Config :=
  { allowed_signers := [], salt_key := [], allow_vote_update := false,
    debug := false, sha256hex := fun l => l }

/-- A configuration whose allow-list is the Gov.gr fragment `APOSTILLE` from
the source defaults. -/
def cfgApostille : Config :=
  { allowed_signers := ["APOSTILLE".toList], salt_key := [],
    allow_vote_update := false, debug := false, sha256hex := fun l => l }

/-- A configuration with the update-allowed policy enabled. -/
def cfgUpdate : Config :=
  { allowed_signers := ["APOSTILLE".toList], salt_key := "s".toList,
    allow_vote_update := true, debug := false, sha256hex := fun l => l }

/-- A previously committed vote for poll `poll1` by the voter whose identity
hash (under `cfgUpdate`) is `123456789s`. -/
def priorVote : VoteRecord :=
  { poll_id := "poll1".toList, voter_hash := "123456789s".toList,
    file_hash := "oldhash".toList, vote_choice := "YES".toList, created_at := 0 }

/-- A document with one valid, trusted signature, a fresh file hash, and
extracted text carrying the session token and an identity but no vote
choice. -/
def docNoChoice : Document :=
  { sigResults := Except.ok [SigOutcome.status true true (some "APOSTILLE".toList)],
    fileHash := "newhash".toList,
    textResult := Except.ok "token123 AFM: 123456789 and nothing else".toList }

/-! ### Helper lemmas on the list-level string operations -/

theorem startsWithL_iff (pat s : List Char) :
    startsWithL pat s = true ↔ ∃ t, s = pat ++ t := by
  induction pat generalizing s with
  | nil => simp [startsWithL]
  | cons p ps ih =>
    cases s with
    | nil =>
      simp only [startsWithL, Bool.false_eq_true, false_iff, not_exists]
      intro t h
      exact List.cons_ne_nil p (ps ++ t) h.symm
    | cons c cs =>
      by_cases h : p = c
      · subst h
        simp [startsWithL, ih]
      · simp only [startsWithL, if_neg h, Bool.false_eq_true, false_iff, not_exists]
        intro t ht
        rw [List.cons_append] at ht
        exact h (List.cons.injEq .. |>.mp ht).1.symm

theorem hasSub_iff (pat s : List Char) :
    hasSub pat s = true ↔ ∃ x y, s = x ++ pat ++ y := by
  induction s with
  | nil =>
    rw [hasSub]
    simp only [List.isEmpty_iff]
    constructor
    · intro h
      subst h
      exact ⟨[], [], rfl⟩
    · rintro ⟨x, y, hxy⟩
      have hx := hxy.symm
      simp only [List.append_assoc, List.append_eq_nil] at hx
      exact hx.2.1
  | cons c cs ih =>
    rw [hasSub]
    simp only [Bool.or_eq_true, startsWithL_iff, ih]
    constructor
    · rintro (⟨t, ht⟩ | ⟨x, y, hxy⟩)
      · exact ⟨[], t, by simp [ht]⟩
      · exact ⟨c :: x, y, by simp [hxy]⟩
    · rintro ⟨x, y, hxy⟩
      cases x with
      | nil =>
        left
        exact ⟨y, by simpa using hxy⟩
      | cons a as =>
        right
        simp only [List.cons_append] at hxy
        injection hxy with h1 h2
        exact ⟨as, y, h2⟩

theorem dropWhile_head_false {α : Type} {p : α → Bool} {l : List α} {c : α}
    {cs : List α} (h : l.dropWhile p = c :: cs) : p c = false := by
  induction l with
  | nil => simp [List.dropWhile] at h
  | cons a as ih =>
    rw [List.dropWhile_cons] at h
    by_cases hp : p a = true
    · rw [if_pos hp] at h
      exact ih h
    · rw [if_neg hp] at h
      injection h with h1 _
      subst h1
      exact Bool.eq_false_iff.mpr hp

theorem dropWhile_idem {α : Type} (p : α → Bool) (l : List α) :
    (l.dropWhile p).dropWhile p = l.dropWhile p := by
  cases h : l.dropWhile p with
  | nil => rfl
  | cons c cs =>
    have hc := dropWhile_head_false h
    rw [List.dropWhile_cons, if_neg (by simp [hc])]

theorem dropWhile_decomp {α : Type} (p : α → Bool) (l : List α) :
    ∃ t, l = t ++ l.dropWhile p := by
  induction l with
  | nil => exact ⟨[], rfl⟩
  | cons c cs ih =>
    by_cases hp : p c = true
    · obtain ⟨t, ht⟩ := ih
      refine ⟨c :: t, ?_⟩
      rw [List.dropWhile_cons, if_pos hp, List.cons_append]
      exact congrArg (c :: ·) ht
    · refine ⟨[], ?_⟩
      rw [List.dropWhile_cons, if_neg hp, List.nil_append]

theorem trimmed_no_lead {α : Type} (p : α → Bool) (l : List α)
    (hl : l.dropWhile p = l) :
    ((l.reverse.dropWhile p).reverse).dropWhile p = (l.reverse.dropWhile p).reverse := by
  cases h : (l.reverse.dropWhile p).reverse with
  | nil => rfl
  | cons c cs =>
    obtain ⟨t, ht⟩ := dropWhile_decomp p l.reverse
    have hl2 : l = (l.reverse.dropWhile p).reverse ++ t.reverse := by
      have h2 := congrArg List.reverse ht
      simpa [List.reverse_append] using h2
    rw [h] at hl2
    have hlc : l.dropWhile p = c :: (cs ++ t.reverse) := by
      rw [hl, hl2]
      simp
    have hc := dropWhile_head_false hlc
    rw [List.dropWhile_cons, if_neg (by simp [hc])]

theorem pyStrip_idem (l : List Char) : pyStrip (pyStrip l) = pyStrip l := by
  have hdd : ((l.dropWhile isPySpace).reverse.dropWhile isPySpace).dropWhile isPySpace
      = (l.dropWhile isPySpace).reverse.dropWhile isPySpace :=
    dropWhile_idem isPySpace (l.dropWhile isPySpace).reverse
  have hnl : (pyStrip l).dropWhile isPySpace = pyStrip l :=
    trimmed_no_lead isPySpace (l.dropWhile isPySpace) (dropWhile_idem isPySpace l)
  show (((pyStrip l).dropWhile isPySpace).reverse.dropWhile isPySpace).reverse = pyStrip l
  rw [hnl]
  show ((((l.dropWhile isPySpace).reverse.dropWhile isPySpace).reverse).reverse.dropWhile
    isPySpace).reverse = pyStrip l
  rw [List.reverse_reverse, hdd]
  rfl

theorem mem_commaJoin {n : List Char} {l : List (List Char)} (h : n ∈ l) :
    ∃ x y, commaJoin l = x ++ n ++ y := by
  induction l with
  | nil => simp at h
  | cons a as ih =>
    cases as with
    | nil =>
      have hn : n = a := by simpa using h
      subst hn
      exact ⟨[], [], by simp [commaJoin]⟩
    | cons b bs =>
      rcases List.mem_cons.mp h with rfl | h2
      · exact ⟨[], ", ".toList ++ commaJoin (b :: bs), by simp [commaJoin]⟩
      · obtain ⟨x, y, hxy⟩ := ih h2
        exact ⟨a ++ ", ".toList ++ x, y, by simp [commaJoin, hxy, List.append_assoc]⟩

/-! ### Well-formedness of each gate result -/

theorem wf_gate1 (cfg : Config) (x : Except (List Char) (List SigOutcome)) :
    ((gate1 cfg x).rejection_reason = none ↔ (gate1 cfg x).success = true) := by
  rcases x with e | sigs
  · simp [gate1]
  · by_cases he : sigs.isEmpty = true
    · simp [gate1, he]
    · rcases hscan : gate1Scan cfg.allowed_signers sigs [] with n | f | m <;>
        simp [gate1, he, hscan]

theorem wf_gate2 (db : List VoteRecord) (fh : List Char) :
    ((gate2 db fh).rejection_reason = none ↔ (gate2 db fh).success = true) := by
  by_cases h : db.any (fun v => v.file_hash == fh) = true <;> simp [gate2, h]

theorem wf_gate3 (cfg : Config) (text tok : List Char) :
    ((gate3 cfg text tok).rejection_reason = none ↔ (gate3 cfg text tok).success = true) := by
  unfold gate3
  split
  · simp
  · split
    · simp
    · split <;> simp

theorem wf_gate4 (cfg : Config) (db : List VoteRecord) (text pid : List Char) :
    ((gate4 cfg db text pid).1.rejection_reason = none ↔
      (gate4 cfg db text pid).1.success = true) := by
  rcases hafm : afmSearch text with _ | afm
  · simp [gate4, hafm]
  · rcases hf : findVote db pid (hashVoterId cfg afm) with _ | v
    · simp [gate4, hafm, hf]
    · by_cases hu : cfg.allow_vote_update = true <;> simp [gate4, hafm, hf, hu]

/-- Claim C7: every `ValidationResult` returned by `validate` or
`validate_identity` has exactly one of the two shapes: success with no
rejection reason, or failure with a rejection reason present (drawn from the
closed `RejectionReason` enumeration by typing). Stated as: the rejection
reason is absent exactly when the result is a success. -/
theorem c7_outcome_shape :
    ∀ cfg db doc pid tok now,
      (((validate cfg db doc pid tok now).1.rejection_reason = none ↔
        (validate cfg db doc pid tok now).1.success = true)) ∧
      (((validate_identity cfg doc).rejection_reason = none ↔
        (validate_identity cfg doc).success = true)) := by
  intro cfg db doc pid tok now
  constructor
  · simp only [validate]
    split
    · exact wf_gate1 cfg doc.sigResults
    · split
      · exact wf_gate2 db doc.fileHash
      · split
        · simp [pdfReadErrorResult]
        · split
          · exact wf_gate3 cfg _ tok
          · split
            · exact wf_gate4 cfg db _ pid
            · split
              · simp [voteChoiceNotFoundResult]
              · split
                · simp [voteChoiceNotFoundResult]
                · simp
  · simp only [validate_identity]
    split
    · exact wf_gate1 cfg doc.sigResults
    · split
      · simp [pdfReadErrorResult]
      · split <;> simp

/-- Claim C8: gate 3 called with an empty poll token returns a rejection with
reason `INVALID_TOKEN` for every text and every configuration — in
particular regardless of the debug flag, because the emptiness check runs
before the debug branch. -/
theorem c8_empty_token :
    ∀ cfg text,
      (gate3 cfg text []).success = false ∧
      (gate3 cfg text []).rejection_reason = some RejectionReason.invalid_token := by
  intro cfg text
  exact ⟨rfl, rfl⟩

/-- Claim C9: the identity matcher does not require a boundary after the ninth
digit: on a text whose label is followed by ten digits, extraction returns
the first nine of them rather than none. -/
theorem c9_ten_digits :
    afmSearch ("AFM:".toList ++ "1234567890".toList) = some ("123456789".toList) ∧
    ("1234567890".toList).length = 10 ∧
    ("1234567890".toList).all Char.isDigit = true := by
  exact ⟨rfl, rfl, rfl⟩

/-- Claim C10: with configuration and durable store fixed, `validate` is a
pure function of the document (the packaged deterministic products of the
raw bytes: signature outcomes, file digest, extracted text), the poll
identifier and the token: its `ValidationResult` does not depend on the only
remaining input, the clock value used for the stored timestamp, and
`validate_identity` likewise depends on nothing else. -/
theorem c10_deterministic :
    ∀ cfg db doc pid tok t1 t2,
      (validate cfg db doc pid tok t1).1 = (validate cfg db doc pid tok t2).1 ∧
      validate_identity cfg doc = validate_identity cfg doc := by
  intro cfg db doc pid tok t1 t2
  refine ⟨?_, rfl⟩
  simp only [validate]
  by_cases h1 : (gate1 cfg doc.sigResults).success = false
  · simp [h1]
  · simp only [if_neg h1]
    by_cases h2 : (gate2 db doc.fileHash).success = false
    · simp [h2]
    · simp only [if_neg h2]
      rcases h3 : doc.textResult with e | text
      · rfl
      · by_cases h4 : (gate3 cfg text tok).success = false
        · simp [h4]
        · simp only [if_neg h4]
          by_cases h5 : (gate4 cfg db text pid).1.success = false
          · simp [h5]
          · simp only [if_neg h5]
            rcases h6 : extractVoteChoice text with _ | choice
            · rfl
            · by_cases h7 : choice = []
              · simp [h7]
              · simp [h7]

/-- Claim C4: gate 3 rejects `INVALID_TOKEN` on an empty token; otherwise,
with debug off, it rejects `TOKEN_NOT_FOUND` exactly when the token does not
occur verbatim as a contiguous substring of the text (and accepts exactly
when it does); with debug on, any supplied token is accepted. -/
theorem c4_gate3_contract :
    ∀ cfg text tok,
      (tok = [] →
        (gate3 cfg text tok).success = false ∧
        (gate3 cfg text tok).rejection_reason = some RejectionReason.invalid_token) ∧
      (tok ≠ [] → cfg.debug = false →
        (((gate3 cfg text tok).success = false ∧
          (gate3 cfg text tok).rejection_reason = some RejectionReason.token_not_found) ↔
            ¬ ∃ x y, text = x ++ tok ++ y) ∧
        ((gate3 cfg text tok).success = true ↔ ∃ x y, text = x ++ tok ++ y)) ∧
      (tok ≠ [] → cfg.debug = true → (gate3 cfg text tok).success = true) := by
  intro cfg text tok
  refine ⟨?_, ?_, ?_⟩
  · rintro rfl
    exact ⟨rfl, rfl⟩
  · intro htok hdbg
    have hemp : tok.isEmpty = false := by
      cases tok with
      | nil => exact absurd rfl htok
      | cons a l => rfl
    have hiff := hasSub_iff tok text
    cases hsub : hasSub tok text with
    | true =>
      have hex' : ∃ x y, text = x ++ (tok ++ y) := by
        obtain ⟨x, y, h⟩ := hiff.mp hsub
        exact ⟨x, y, by rw [h, List.append_assoc]⟩
      constructor
      · simp only [gate3, hemp, hdbg, hsub]
        simp [hex']
      · simp only [gate3, hemp, hdbg, hsub]
        simp [hex']
    | false =>
      have hnex' : ∀ x y, ¬ text = x ++ (tok ++ y) := by
        intro x y h
        rw [← List.append_assoc] at h
        rw [hiff.mpr ⟨x, y, h⟩] at hsub
        exact Bool.true_eq_false.mp hsub
      constructor
      · simp only [gate3, hemp, hdbg, hsub]
        simp [hnex']
      · simp only [gate3, hemp, hdbg, hsub]
        simp [hnex']
  · intro htok hdbg
    have hemp : tok.isEmpty = false := by
      cases tok with
      | nil => exact absurd rfl htok
      | cons a l => rfl
    simp [gate3, hemp, hdbg]

/-- Witness for C4 at concrete inputs: an empty token is rejected as
`INVALID_TOKEN`; with debug off, a token present in the text is accepted and
an absent token is rejected as `TOKEN_NOT_FOUND`. -/
theorem c4_gate3_contract_witness :
    (gate3 cfgOff ("abc".toList) []).rejection_reason
        = some RejectionReason.invalid_token ∧
    (gate3 cfgOff ("hello tok123 bye".toList) ("tok123".toList)).success = true ∧
    (gate3 cfgOff ("hello".toList) ("tok999".toList)).rejection_reason
        = some RejectionReason.token_not_found := by
  refine ⟨?_, ?_, ?_⟩
  · exact ((c4_gate3_contract cfgOff ("abc".toList) []).1 rfl).2
  · exact ((c4_gate3_contract cfgOff ("hello tok123 bye".toList) ("tok123".toList)).2.1
      (by decide) rfl).2.mpr ⟨"hello ".toList, " bye".toList, by decide⟩
  · have hno : ¬ ∃ x y, ("hello".toList) = x ++ ("tok999".toList) ++ y := by
      rintro ⟨x, y, hxy⟩
      have hlen := congrArg List.length hxy
      simp [List.length_append] at hlen
      omega
    exact (((c4_gate3_contract cfgOff ("hello".toList) ("tok999".toList)).2.1
      (by decide) rfl).1.mpr hno).2

/-- Any value returned by the final (loosest Greek) strategy passed its
sanity check: it is a stripped, non-empty capture shorter than 200
characters. -/
theorem tryGrOti_some (text v : List Char) (h : tryGrOti text = some v) :
    pyStrip v = v ∧ v ≠ [] ∧ v.length < 200 := by
  unfold tryGrOti at h
  cases hs : searchWith grOtiAt text with
  | none =>
    rw [hs] at h
    exact absurd h (by simp)
  | some g =>
    rw [hs] at h
    simp only [] at h
    by_cases hc : pyStrip g ≠ [] ∧ (pyStrip g).length < 200
    · rw [if_pos hc] at h
      injection h with h1
      subst h1
      exact ⟨pyStrip_idem g, hc.1, hc.2⟩
    · rw [if_neg hc] at h
      exact absurd h (by simp)

/-- Counterexample to claim C2: the English bracketed strategy returns its
stripped capture unconditionally, so extraction can return a value that is
empty (`vote for []`) or longer than 200 characters, contradicting the
claimed non-emptiness and 200-character bound. -/
theorem c2_counterexample :
    extractVoteChoice ("vote for []".toList) = some [] ∧
    extractVoteChoice ("vote for [".toList ++ List.replicate 250 'a' ++ "]".toList)
      = some (List.replicate 250 'a') ∧
    200 < (List.replicate 250 'a').length := by
  refine ⟨rfl, ?_, by simp⟩
  rfl

/-- Claim C2 as amended: every value returned by vote-choice extraction is
trimmed of surrounding whitespace; the non-emptiness and sub-200-character
bound are guaranteed only when neither bracketed strategy matched (i.e. the
value came from one of the two flexible Greek strategies, whose sanity check
enforces them); the bracketed strategies return their trimmed capture
unconditionally. -/
theorem c2_amended :
    ∀ text v, extractVoteChoice text = some v →
      pyStrip v = v ∧
      (searchWith voteEnAt text = none → searchWith voteGrAt text = none →
        v ≠ [] ∧ v.length < 200) := by
  intro text v h
  unfold extractVoteChoice at h
  cases hEn : searchWith voteEnAt text with
  | some g =>
    rw [hEn] at h
    injection h with h1
    subst h1
    refine ⟨pyStrip_idem g, ?_⟩
    intro hcontra _
    exact absurd hcontra (by simp)
  | none =>
    rw [hEn] at h
    cases hGr : searchWith voteGrAt text with
    | some g =>
      rw [hGr] at h
      injection h with h1
      subst h1
      refine ⟨pyStrip_idem g, ?_⟩
      intro _ hcontra
      exact absurd hcontra (by simp)
    | none =>
      rw [hGr] at h
      cases hAlt : searchWith graltAt text with
      | some g =>
        rw [hAlt] at h
        simp only [] at h
        by_cases hc : pyStrip g ≠ [] ∧ (pyStrip g).length < 200
        · rw [if_pos hc] at h
          injection h with h1
          subst h1
          exact ⟨pyStrip_idem g, fun _ _ => hc⟩
        · rw [if_neg hc] at h
          obtain ⟨h1, h2, h3⟩ := tryGrOti_some text v h
          exact ⟨h1, fun _ _ => ⟨h2, h3⟩⟩
      | none =>
        rw [hAlt] at h
        obtain ⟨h1, h2, h3⟩ := tryGrOti_some text v h
        exact ⟨h1, fun _ _ => ⟨h2, h3⟩⟩

/-- Witness for the amended C2 at a concrete input: on a flexible-Greek text
the returned choice is trimmed, non-empty and under the bound. -/
theorem c2_amended_witness :
    pyStrip ("ναι".toList) = "ναι".toList ∧
    ("ναι".toList ≠ [] ∧ ("ναι".toList).length < 200) := by
  have h := c2_amended ("ψηφίζω ναι.".toList) ("ναι".toList) rfl
  exact ⟨h.1, h.2 rfl rfl⟩

/-- Counterexample to claim C3: an exception of a type other than
`SignatureValidationError` raised while validating one signature is fatal to
the whole gate — with such a signature first, gate 1 returns
`INVALID_SIGNATURE` even though the next signature is valid and trusted,
whereas without it the same remaining signature is accepted; the erroring
signature is not skipped. -/
theorem c3_counterexample :
    (gate1 cfgApostille (Except.ok [SigOutcome.otherError "boom".toList,
        SigOutcome.status true true (some "APOSTILLE".toList)])).success = false ∧
    (gate1 cfgApostille (Except.ok [SigOutcome.otherError "boom".toList,
        SigOutcome.status true true (some "APOSTILLE".toList)])).rejection_reason
      = some RejectionReason.invalid_signature ∧
    (gate1 cfgApostille
      (Except.ok [SigOutcome.status true true (some "APOSTILLE".toList)])).success
      = true := by
  refine ⟨rfl, rfl, ?_⟩
  rfl

/-- Claim C3 as amended: a raised `SignatureValidationError` is non-fatal —
the signature is skipped and scanning continues unchanged — while an
exception of any other type raised by the validator escapes the loop and
makes the whole gate reject with `INVALID_SIGNATURE`. -/
theorem c3_amended :
    ∀ allowed rest found msg,
      (gate1Scan allowed (SigOutcome.sigValidationError :: rest) found
        = gate1Scan allowed rest found) ∧
      (gate1Scan allowed (SigOutcome.otherError msg :: rest) found
        = Gate1Scan.fatal msg) ∧
      (∀ cfg sigs m, sigs ≠ [] →
        gate1Scan cfg.allowed_signers sigs [] = Gate1Scan.fatal m →
        (gate1 cfg (Except.ok sigs)).success = false ∧
        (gate1 cfg (Except.ok sigs)).rejection_reason
          = some RejectionReason.invalid_signature) := by
  intro allowed rest found msg
  refine ⟨rfl, rfl, ?_⟩
  intro cfg sigs m hne hfatal
  have hemp : sigs.isEmpty = false := by
    cases sigs with
    | nil => exact absurd rfl hne
    | cons a l => rfl
  simp [gate1, hemp, hfatal]

/-- Witness for the amended C3 at concrete inputs: a
`SignatureValidationError` signature is skipped (the scan result equals the
scan of the remaining signatures), and a gate whose scan ends fatally
rejects with `INVALID_SIGNATURE`. -/
theorem c3_amended_witness :
    gate1Scan ["APOSTILLE".toList] [SigOutcome.sigValidationError] []
      = Gate1Scan.exhausted [] ∧
    (gate1 cfgApostille (Except.ok [SigOutcome.otherError "e".toList])).rejection_reason
      = some RejectionReason.invalid_signature := by
  constructor
  · exact ((c3_amended ["APOSTILLE".toList] [] [] "e".toList).1).trans rfl
  · exact ((c3_amended ["APOSTILLE".toList] [] [] "e".toList).2.2 cfgApostille
      [SigOutcome.otherError "e".toList] ("e".toList) (by simp) rfl).2

/-- When no validator call raises a foreign exception and no accumulated
signer passes the allow-list test, the scan exhausts the signatures and
returns the accumulated candidate names. -/
theorem gate1Scan_exhausted (allowed : List (List Char)) :
    ∀ (sigs : List SigOutcome) (found : List (List Char)),
      noOtherError sigs = true →
      ((foundNames sigs).all fun n => !(isAllowedSigner allowed n)) = true →
      gate1Scan allowed sigs found = Gate1Scan.exhausted (found ++ foundNames sigs) := by
  intro sigs
  induction sigs with
  | nil =>
    intro found _ _
    simp [gate1Scan, foundNames]
  | cons s rest ih =>
    intro found hno hall
    cases s with
    | status valid intact cert =>
      have hno2 : noOtherError rest = true := by
        simpa [noOtherError] using hno
      cases cert with
      | some n =>
        by_cases hvi : (valid && intact) = true
        · have hfn : foundNames (SigOutcome.status valid intact (some n) :: rest)
              = n :: foundNames rest := by
            simp [foundNames, hvi]
          rw [hfn] at hall
          simp only [List.all_cons, Bool.and_eq_true] at hall
          obtain ⟨hn, hrest⟩ := hall
          have hnall : isAllowedSigner allowed n = false := by
            revert hn
            cases isAllowedSigner allowed n <;> simp
          simp only [gate1Scan, hvi, if_true, hnall, Bool.false_eq_true, if_false]
          rw [ih (found ++ [n]) hno2 hrest, hfn]
          simp
        · have hfn : foundNames (SigOutcome.status valid intact (some n) :: rest)
              = foundNames rest := by
            simp [foundNames, hvi]
          rw [hfn] at hall
          simp only [gate1Scan, if_neg hvi]
          rw [ih found hno2 hall, hfn]
      | none =>
        have hfn : foundNames (SigOutcome.status valid intact none :: rest)
            = foundNames rest := by
          simp [foundNames]
        rw [hfn] at hall
        by_cases hvi : (valid && intact) = true
        · simp only [gate1Scan, hvi, if_true]
          rw [ih found hno2 hall, hfn]
        · simp only [gate1Scan, if_neg hvi]
          rw [ih found hno2 hall, hfn]
    | sigValidationError =>
      have hno2 : noOtherError rest = true := by
        simpa [noOtherError] using hno
      have hfn : foundNames (SigOutcome.sigValidationError :: rest)
          = foundNames rest := by
        simp [foundNames]
      rw [hfn] at hall
      simp only [gate1Scan]
      rw [ih found hno2 hall, hfn]
    | otherError m =>
      simp [noOtherError] at hno

/-- Claim C6: the allow-list test succeeds exactly when some configured
fragment, uppercased, is a contiguous substring of the uppercased signer
name or conversely; and when the signatures produce no foreign validator
exception and none of the candidate signers passes the test, gate 1 rejects
with `UNKNOWN_SIGNER` and its message contains every candidate signer name
found. -/
theorem c6_allowed_signer :
    (∀ allowed name,
      isAllowedSigner allowed name = true ↔
        ∃ a, a ∈ allowed ∧
          ((∃ x y, upperL name = x ++ upperL a ++ y) ∨
           (∃ x y, upperL a = x ++ upperL name ++ y))) ∧
    (∀ cfg sigs, sigs ≠ [] → noOtherError sigs = true →
      ((foundNames sigs).all fun n => !(isAllowedSigner cfg.allowed_signers n)) = true →
      (gate1 cfg (Except.ok sigs)).success = false ∧
      (gate1 cfg (Except.ok sigs)).rejection_reason = some RejectionReason.unknown_signer ∧
      ∀ n, n ∈ foundNames sigs →
        ∃ x y, (gate1 cfg (Except.ok sigs)).message = x ++ n ++ y) := by
  constructor
  · intro allowed name
    rw [isAllowedSigner, List.any_eq_true]
    constructor
    · rintro ⟨a, ha, hp⟩
      rcases Bool.or_eq_true .. |>.mp hp with h1 | h2
      · exact ⟨a, ha, Or.inl ((hasSub_iff _ _).mp h1)⟩
      · exact ⟨a, ha, Or.inr ((hasSub_iff _ _).mp h2)⟩
    · rintro ⟨a, ha, h1 | h2⟩
      · exact ⟨a, ha, Bool.or_eq_true .. |>.mpr (Or.inl ((hasSub_iff _ _).mpr h1))⟩
      · exact ⟨a, ha, Bool.or_eq_true .. |>.mpr (Or.inr ((hasSub_iff _ _).mpr h2))⟩
  · intro cfg sigs hne hno hall
    have hemp : sigs.isEmpty = false := by
      cases sigs with
      | nil => exact absurd rfl hne
      | cons a l => rfl
    have hscan := gate1Scan_exhausted cfg.allowed_signers sigs [] hno hall
    rw [List.nil_append] at hscan
    refine ⟨?_, ?_, ?_⟩
    · simp [gate1, hemp, hscan]
    · simp [gate1, hemp, hscan]
    · intro n hn
      have hmsg : (gate1 cfg (Except.ok sigs)).message
          = unknownSignerMsg (foundNames sigs) := by
        simp [gate1, hemp, hscan]
      have hfne : (foundNames sigs).isEmpty = false := by
        cases hfn : foundNames sigs with
        | nil => rw [hfn] at hn; simp at hn
        | cons a l => rfl
      obtain ⟨x, y, hxy⟩ := mem_commaJoin hn
      refine ⟨"PDF signature is not from a recognized government authority. Found: ".toList
        ++ x, y, ?_⟩
      rw [hmsg, unknownSignerMsg, hfne]
      simp only [Bool.false_eq_true, if_false, hxy, List.append_assoc]

/-- Witness for C6 at concrete inputs: the symmetric substring test accepts a
name containing a fragment, and a gate whose only candidate signer fails the
test rejects with `UNKNOWN_SIGNER` and a message containing that name. -/
theorem c6_allowed_signer_witness :
    isAllowedSigner ["APOSTILLE".toList] ("Gov APOSTILLE unit".toList) = true ∧
    (gate1 cfgApostille (Except.ok [SigOutcome.status true true
        (some "Random CA".toList)])).rejection_reason
      = some RejectionReason.unknown_signer ∧
    ∃ x y, (gate1 cfgApostille (Except.ok [SigOutcome.status true true
        (some "Random CA".toList)])).message = x ++ ("Random CA".toList) ++ y := by
  refine ⟨?_, ?_, ?_⟩
  · exact (c6_allowed_signer.1 ["APOSTILLE".toList] ("Gov APOSTILLE unit".toList)).mpr
      ⟨"APOSTILLE".toList, by decide, Or.inl ⟨"GOV ".toList, " UNIT".toList, by decide⟩⟩
  · exact ((c6_allowed_signer.2 cfgApostille
      [SigOutcome.status true true (some "Random CA".toList)]
      (by simp) rfl (by decide)).2).1
  · exact ((c6_allowed_signer.2 cfgApostille
      [SigOutcome.status true true (some "Random CA".toList)]
      (by simp) rfl (by decide)).2).2 ("Random CA".toList) (by decide)

/-- A digit character is not in the separator class `[:\s]`. -/
theorem isSep_of_digit {c : Char} (h : c.isDigit = true) : isSep c = false := by
  by_contra hne
  have hsep : isSep c = true := by
    revert hne
    cases isSep c <;> simp
  simp only [isSep, isPySpace, Bool.or_eq_true, decide_eq_true_eq] at hsep
  rcases hsep with rfl | hsp
  · exact absurd h (by decide)
  · rcases hsp with ((((rfl | rfl) | rfl) | rfl) | rfl) | rfl <;> exact absurd h (by decide)

/-- Pattern `AFM_PATTERN` anchored right at a label occurrence immediately followed by
nine digits matches and captures exactly those digits. -/
theorem afmAt_label (lab d post : List Char) (hlab : lab ∈ afmLabels)
    (h9 : d.length = 9) (hd : d.all Char.isDigit = true) :
    afmAt (lab ++ (d ++ post)) = some d := by
  have htry : tryLabels afmLabels (lab ++ (d ++ post)) = some (d ++ post) := by
    simp only [afmLabels, List.mem_cons, List.not_mem_nil, or_false] at hlab
    rcases hlab with rfl | rfl | rfl | rfl <;> rfl
  have hdrop : (d ++ post).dropWhile isSep = d ++ post := by
    cases d with
    | nil => simp at h9
    | cons c cs =>
      have hc : Char.isDigit c = true := by
        simp only [List.all_cons, Bool.and_eq_true] at hd
        exact hd.1
      rw [List.cons_append, List.dropWhile_cons, if_neg (by simp [isSep_of_digit hc])]
  have htake : (d ++ post).take 9 = d := by
    rw [← h9]
    exact List.take_left d post
  simp only [afmAt, htry, hdrop, htake]
  simp [h9, hd]

/-- No `AFM_PATTERN` match can start at a character that is not the start of
any label alternative (case-insensitively `a`, `α` or `t`). -/
theorem afmAt_none_of_head (c : Char) (cs : List Char)
    (h : lcase c ≠ 'a' ∧ lcase c ≠ 'α' ∧ lcase c ≠ 't') : afmAt (c :: cs) = none := by
  have h1 : matchLitCI ("AFM".toList) (c :: cs) = none := by
    show matchLitCI ('A' :: 'F' :: 'M' :: []) (c :: cs) = none
    simp only [matchLitCI]
    rw [show lcase 'A' = 'a' from rfl, if_neg h.1]
  have h2 : matchLitCI ("ΑΦΜ".toList) (c :: cs) = none := by
    show matchLitCI ('Α' :: 'Φ' :: 'Μ' :: []) (c :: cs) = none
    simp only [matchLitCI]
    rw [show lcase 'Α' = 'α' from rfl, if_neg h.2.1]
  have h3 : matchLitCI ("Α.Φ.Μ.".toList) (c :: cs) = none := by
    show matchLitCI ('Α' :: '.' :: 'Φ' :: '.' :: 'Μ' :: '.' :: []) (c :: cs) = none
    simp only [matchLitCI]
    rw [show lcase 'Α' = 'α' from rfl, if_neg h.2.1]
  have h4 : matchLitCI ("Tax ID".toList) (c :: cs) = none := by
    show matchLitCI ('T' :: 'a' :: 'x' :: ' ' :: 'I' :: 'D' :: []) (c :: cs) = none
    simp only [matchLitCI]
    rw [show lcase 'T' = 't' from rfl, if_neg h.2.2]
  simp only [afmAt, afmLabels, tryLabels, h1, h2, h3, h4]

/-- The leftmost search skips any text whose characters cannot start a label
alternative. -/
theorem afmSearch_skip : ∀ (pre rest1 : List Char),
    (∀ c ∈ pre, lcase c ≠ 'a' ∧ lcase c ≠ 'α' ∧ lcase c ≠ 't') →
    afmSearch (pre ++ rest1) = afmSearch rest1 := by
  intro pre
  induction pre with
  | nil =>
    intro rest1 _
    rfl
  | cons c cs ih =>
    intro rest1 hpre
    have hc := hpre c (List.mem_cons_self c cs)
    rw [List.cons_append]
    simp only [afmSearch, afmAt_none_of_head c (cs ++ rest1) hc]
    exact ih rest1 (fun x hx => hpre x (List.mem_cons_of_mem c hx))

/-- The search succeeds at the current position whenever the anchored matcher
does. -/
theorem afmSearch_cons_of_at (c : Char) (cs d : List Char)
    (h : afmAt (c :: cs) = some d) : afmSearch (c :: cs) = some d := by
  simp only [afmSearch, h]

/-- If the first `n` elements all satisfy `p`, the maximal `p`-prefix has at
least `n` elements. -/
theorem le_takeWhile_of_take (p : Char → Bool) :
    ∀ (n : Nat) (l : List Char), (l.take n).length = n → (l.take n).all p = true →
      n ≤ (l.takeWhile p).length := by
  intro n
  induction n with
  | zero =>
    intro l _ _
    exact Nat.zero_le _
  | succ m ih =>
    intro l hlen hall
    cases l with
    | nil => simp at hlen
    | cons c cs =>
      have hlen2 : (cs.take m).length = m := by
        have hx : (c :: cs.take m).length = m + 1 := hlen
        simpa using hx
      have hall2 : p c = true ∧ (cs.take m).all p = true := by
        have hx : (c :: cs.take m).all p = true := hall
        simpa using hx
      rw [List.takeWhile_cons, if_pos hall2.1]
      simp only [List.length_cons]
      exact Nat.succ_le_succ (ih cs hlen2 hall2.2)

/-- A position at which every label occurrence is followed by fewer than nine
digits yields no anchored match. -/
theorem afmAt_none_of_short (s : List Char) (h : labelShortAt s = true) :
    afmAt s = none := by
  cases htry : tryLabels afmLabels s with
  | none => simp [afmAt, htry]
  | some r =>
    simp only [labelShortAt, htry, decide_eq_true_eq] at h
    have hnp : ¬(((r.dropWhile isSep).take 9).length = 9 ∧
        ((r.dropWhile isSep).take 9).all Char.isDigit = true) := by
      rintro ⟨hlen, hall⟩
      have hge := le_takeWhile_of_take Char.isDigit 9 (r.dropWhile isSep) hlen hall
      omega
    simp only [afmAt, htry]
    rw [if_neg hnp]

/-- Claim C5: for text decomposing as a clean context (no character that can
start a label alternative), then a label variant of
`{AFM, ΑΦΜ, Α.Φ.Μ., Tax ID}` immediately followed by exactly nine digits
(no further digit after the ninth), extraction returns exactly those nine
digits; and for any text in which every label occurrence is followed by
fewer than nine digits (after optional separators), extraction returns none
(mapped upstream to `AFM_NOT_FOUND`). The clean-context hypothesis pins the
named occurrence as the leftmost match, which is the one the search
returns. -/
theorem c5_afm_extraction :
    (∀ pre lab d post, lab ∈ afmLabels → d.length = 9 → d.all Char.isDigit = true →
      (∀ c ∈ pre, lcase c ≠ 'a' ∧ lcase c ≠ 'α' ∧ lcase c ≠ 't') →
      noLeadDigit post = true →
      afmSearch (pre ++ lab ++ d ++ post) = some d) ∧
    (∀ text, allLabelsShort text = true → afmSearch text = none) := by
  constructor
  · intro pre lab d post hlab h9 hd hpre hpost
    rw [List.append_assoc, List.append_assoc]
    rw [afmSearch_skip pre (lab ++ (d ++ post)) hpre]
    have hAt := afmAt_label lab d post hlab h9 hd
    simp only [afmLabels, List.mem_cons, List.not_mem_nil, or_false] at hlab
    rcases hlab with rfl | rfl | rfl | rfl
    · exact afmSearch_cons_of_at 'A' ('F' :: 'M' :: (d ++ post)) d hAt
    · exact afmSearch_cons_of_at 'Α' ('Φ' :: 'Μ' :: (d ++ post)) d hAt
    · exact afmSearch_cons_of_at 'Α' ('.' :: 'Φ' :: '.' :: 'Μ' :: '.' :: (d ++ post)) d hAt
    · exact afmSearch_cons_of_at 'T' ('a' :: 'x' :: ' ' :: 'I' :: 'D' :: (d ++ post)) d hAt
  · intro text
    induction text with
    | nil =>
      intro _
      rfl
    | cons c cs ih =>
      intro h
      simp only [allLabelsShort, Bool.and_eq_true] at h
      simp only [afmSearch, afmAt_none_of_short (c :: cs) h.1]
      exact ih h.2

/-- Witness for C5 at concrete inputs: a label followed by exactly nine
digits yields those digits, and a label followed by five digits yields
none. -/
theorem c5_afm_extraction_witness :
    afmSearch ("x: ".toList ++ "AFM".toList ++ "123456789".toList ++ " end".toList)
      = some ("123456789".toList) ∧
    afmSearch ("AFM: 12345".toList) = none := by
  constructor
  · exact c5_afm_extraction.1 ("x: ".toList) ("AFM".toList) ("123456789".toList)
      (" end".toList) (by decide) (by decide) (by decide) (by decide) (by decide)
  · exact c5_afm_extraction.2 ("AFM: 12345".toList) (by decide)

/-- Claim C1 is violated by the source: in `_gate4_verify_identity` the
update-allowed branch executes `db.delete(existing_vote)` and then
`db.commit()` before any insert, so the deletion is durably committed inside
gate 4, not in one transaction with the insert. Evaluated at a concrete
input (update policy on, a prior vote present, a document whose text passes
gates 1–4 but contains no vote choice), `validate` returns a rejection
(`VOTE_CHOICE_NOT_FOUND`) while the durable store has changed: the prior
vote is gone and nothing replaced it. -/
theorem c1_gate4_commits_before_final :
    (validate cfgUpdate [priorVote] docNoChoice ("poll1".toList)
        ("token123".toList) 5).1.success = false ∧
    (validate cfgUpdate [priorVote] docNoChoice ("poll1".toList)
        ("token123".toList) 5).1.rejection_reason
      = some RejectionReason.vote_choice_not_found ∧
    (validate cfgUpdate [priorVote] docNoChoice ("poll1".toList)
        ("token123".toList) 5).2 = [] ∧
    (gate4 cfgUpdate [priorVote]
        ("token123 AFM: 123456789 and nothing else".toList) ("poll1".toList)).2 = [] ∧
    [priorVote] ≠ ([] : List VoteRecord) := by
  refine ⟨rfl, rfl, rfl, rfl, ?_⟩
  simp
